import Mathlib

/-!
Verification of the Study-Sync recurring-reminder scheduling engine
(`src/main.py`) against its natural-language specification.

The embedding models the in-memory state of the FastAPI service (`classes_db`,
the APScheduler job store keyed by `reminder_{class_id}`, and `messages_db`)
as explicit Lean structures, and each HTTP handler / helper function as a
pure state transformer.  Python dicts become association lists (insertion
order is irrelevant to every property proved here); `uuid.uuid4()` fresh
identifiers are modelled as a fresh-id counter carried in the state;
`datetime` wall-clock values are minutes since midnight, with the exact
modular arithmetic that naive-`datetime` subtraction performs.
-/

namespace StudySync

/-- A recurring fire specification: the `CronTrigger(day_of_week, hour, minute)`
built in `schedule_reminder`.  `day` is the APScheduler weekday code
(0 = Monday, ..., 6 = Sunday). -/
structure FireSpec where
  day : Nat
  hour : Int
  minute : Int
deriving DecidableEq, Repr

/-- The `TutoringClass` pydantic model of `src/main.py`.  `id` and
`created_at` are `Optional` (default `None`); `created_at` is modelled as an
abstract timestamp (`Option Nat`).  `reminder_minutes : Int` — the model is a
plain `int` with no non-negativity validation. -/
structure TutoringClass where
  id : Option Nat
  parent_phone : String
  child_name : String
  subject : String
  day_of_week : String
  class_time : String
  reminder_minutes : Int
  is_active : Bool
  created_at : Option Nat
deriving DecidableEq, Repr

/-- The `day_mapping` dict of `schedule_reminder` (lines 257-260). -/
def day_mapping : String → Option Nat
  | "Monday" => some 0
  | "Tuesday" => some 1
  | "Wednesday" => some 2
  | "Thursday" => some 3
  | "Friday" => some 4
  | "Saturday" => some 5
  | "Sunday" => some 6
  | _ => none

/-- Python `str.split(":")` on the underlying character list: splits at
every colon, keeping empty groups (`"".split(":") == [""]`). -/
def split_on_colon : List Char → List (List Char)
  | [] => [[]]
  | c :: rest =>
    match split_on_colon rest with
    | [] => [[c]]
    | g :: gs => if c = ':' then [] :: g :: gs else (c :: g) :: gs

/-- Value of a non-empty all-decimal-digit numeral; `none` when the list is
empty or holds a non-digit. -/
def parse_digits : List Char → Option Nat
  | [] => none
  | cs =>
    cs.foldl
      (fun acc c =>
        match acc with
        | none => none
        | some n => if c.isDigit then some (n * 10 + (c.toNat - 48)) else none)
      (some 0)

/-- Python `int()` on a component: an optional minus sign followed by decimal
digits.  (The whitespace and plus-sign tolerance of `int()` is not modelled;
no property below depends on it.) -/
def pyInt? (cs : List Char) : Option Int :=
  match cs with
  | '-' :: rest => (parse_digits rest).map (fun n => -(n : Int))
  | _ => (parse_digits cs).map (fun n => (n : Int))

/-- `hour, minute = map(int, class_time.split(":"))` (line 268): the string
must split on ":" into exactly two components, each parsed by Python
`int()`; any other shape raises inside the `try` and is swallowed. -/
def parse_time (s : String) : Option (Int × Int) :=
  match split_on_colon s.data with
  | [h, m] =>
    match pyInt? h, pyInt? m with
    | some hh, some mm => some (hh, mm)
    | _, _ => none
  | _ => none

/-- Lines 274-283: `reminder_time = now.replace(hour=hour, minute=minute)
- timedelta(minutes=reminder_minutes)`, then the cron trigger takes
`day_mapping[day_of_week]` together with `reminder_time.hour` and
`reminder_time.minute`.  Naive-`datetime` subtraction makes the resulting
hour/minute exactly `(hour*60 + minute - lead) mod 1440`, split into hour and
minute; the weekday placed in the trigger is the *original* weekday code `d`,
unadjusted by any midnight crossing. -/
def computeFireSpec (d : Nat) (hour minute lead : Int) : FireSpec :=
  let r : Int := (hour * 60 + minute - lead).emod 1440
  ⟨d, r / 60, r % 60⟩

/-- Outcome of `schedule_reminder` (lines 255-294) for a given class record:
* `installed spec` — a cron job with `spec` is added (replacing any job with
  the same id);
* `invalidDay` — `day_of_week` not in `day_mapping`: logged, silent return;
* `invalidTime` — `class_time` fails to parse: logged, silent return;
* `valueError` — the time parses but `datetime.replace` is called with an
  hour outside 0..23 or a minute outside 0..59, raising an uncaught
  `ValueError` that propagates to the HTTP layer. -/
inductive SchedOutcome where
  | installed (spec : FireSpec)
  | invalidDay
  | invalidTime
  | valueError
deriving DecidableEq, Repr

/-- The decision taken by `schedule_reminder` for a class record (lines 255-294). -/
def schedule_reminder (c : TutoringClass) : SchedOutcome :=
  match day_mapping c.day_of_week with
  | none => .invalidDay
  | some d =>
    match parse_time c.class_time with
    | none => .invalidTime
    | some (h, m) =>
      if 0 ≤ h ∧ h ≤ 23 ∧ 0 ≤ m ∧ m ≤ 59 then
        .installed (computeFireSpec d h m c.reminder_minutes)
      else
        .valueError

/-- The fire spec `schedule_reminder` would install for a record, if any. -/
def schedSpec (c : TutoringClass) : Option FireSpec :=
  match schedule_reminder c with
  | .installed spec => some spec
  | _ => none

/-! ### Association-list model of the Python dicts

`classes_db` and the APScheduler job store are keyed maps; we model both as
association lists over `Nat` keys (the scheduler job id `reminder_{class_id}`
is in bijection with `class_id`, so the job store is keyed directly by the
class id).  `aset` is dict assignment / `add_job(..., replace_existing=True)`;
`adel` is `del` / `remove_job`; `aget` is lookup. -/

/-- Keyed lookup in an association list. -/
def aget {α : Type} (l : List (Nat × α)) (k : Nat) : Option α :=
  (l.find? (fun p => p.1 = k)).map (fun p => p.2)

/-- Keyed insert-or-replace: removes every binding of `k`, then binds `k` to
`v`.  This is Python dict assignment and also the APScheduler
`replace_existing=True` install. -/
def aset {α : Type} (l : List (Nat × α)) (k : Nat) (v : α) : List (Nat × α) :=
  (k, v) :: l.filter (fun p => p.1 ≠ k)

/-- Keyed removal; a no-op when `k` is unbound (the source wraps
`remove_job` in `try/except pass`). -/
def adel {α : Type} (l : List (Nat × α)) (k : Nat) : List (Nat × α) :=
  l.filter (fun p => p.1 ≠ k)

/-- A message appended to `messages_db` by `send_whatsapp_message`. -/
structure Msg where
  phone : String
  message : String
deriving DecidableEq, Repr

/-- The in-memory state of the service: `classes_db`, the scheduler job store,
`messages_db`, and the fresh-id counter modelling `uuid.uuid4()` (every
generated id is the current counter value, strictly larger than every id
generated before it). -/
structure SysState where
  classes_db : List (Nat × TutoringClass)
  jobs : List (Nat × FireSpec)
  messages_db : List Msg
  next_id : Nat
deriving DecidableEq, Repr

/-- The empty startup state. -/
def init : SysState := ⟨[], [], [], 0⟩

/-- HTTP-level failures surfaced to a caller: `notFound` is the explicit
`HTTPException(404)`, `internal` is an uncaught exception turned into a 500
response by the framework. -/
inductive HErr where
  | notFound
  | internal
deriving DecidableEq, Repr

/-- Decidable equality for `Except` results, so that concrete handler
outcomes can be checked by evaluation. -/
instance {ε α : Type} [DecidableEq ε] [DecidableEq α] : DecidableEq (Except ε α) :=
  fun x y =>
    match x, y with
    | Except.ok a, Except.ok b =>
      if h : a = b then Decidable.isTrue (by rw [h])
      else Decidable.isFalse (fun hc => h (by cases hc; rfl))
    | Except.ok _, Except.error _ => Decidable.isFalse (fun hc => by cases hc)
    | Except.error _, Except.ok _ => Decidable.isFalse (fun hc => by cases hc)
    | Except.error d, Except.error e =>
      if h : d = e then Decidable.isTrue (by rw [h])
      else Decidable.isFalse (fun hc => h (by cases hc; rfl))

/-- The reminder template of `send_class_reminder` (lines 97-106), populated
with the subject, student, time, day and lead minutes of the record. -/
def render_message (c : TutoringClass) : String :=
  "Class Reminder! Subject: " ++ c.subject ++ " Student: " ++ c.child_name ++
    " Time: " ++ c.class_time ++ " Today: " ++ c.day_of_week ++
    " Do not forget! Class starts in " ++ toString c.reminder_minutes ++ " minutes."

/-- Result of one `send_class_reminder` invocation:
* `unknownSession` — no record for the id (logged `Class ... not found`,
  silent return, nothing dispatched);
* `inactiveNoop` — record exists with `is_active = False` (silent return,
  nothing dispatched);
* `sent` — one transport call made via `send_whatsapp_message`. -/
inductive FireResult where
  | unknownSession
  | inactiveNoop
  | sent
deriving DecidableEq, Repr

/-- `send_class_reminder` (lines 87-108).  Total: every branch returns
normally (the unknown-session case is logged and swallowed, never raised), so
the background firing path never sees an exception. -/
def send_class_reminder (s : SysState) (cid : Nat) : SysState × FireResult :=
  match aget s.classes_db cid with
  | none => (s, .unknownSession)
  | some c =>
    if c.is_active = false then (s, .inactiveNoop)
    else
      ({ s with messages_db := s.messages_db ++ [⟨c.parent_phone, render_message c⟩] }, .sent)

/-- `create_class` (lines 131-143): generate a fresh id, overwrite the
the `id` and `created_at` of the request body, store the record, then call
`schedule_reminder`.  An `installed` outcome adds the job; `invalidDay` /
`invalidTime` are swallowed inside `schedule_reminder` and the handler still
returns the success payload with the new id; `valueError` escapes as a 500
after the record is already stored. -/
def create_class (s : SysState) (req : TutoringClass) (now : Nat) :
    SysState × Except HErr Nat :=
  let cid := s.next_id
  let stored : TutoringClass := { req with id := some cid, created_at := some now }
  let s1 : SysState :=
    { s with classes_db := aset s.classes_db cid stored, next_id := s.next_id + 1 }
  match schedule_reminder stored with
  | .installed spec => ({ s1 with jobs := aset s1.jobs cid spec }, .ok cid)
  | .invalidDay => (s1, .ok cid)
  | .invalidTime => (s1, .ok cid)
  | .valueError => (s1, .error .internal)

/-- `update_class` (lines 159-178): 404 if the id is unknown; otherwise
remove the old job (ignoring absence), store the request body with `id`
reset to the path id (`created_at` is whatever the request body carries),
and reschedule as in `create_class`. -/
def update_class (s : SysState) (cid : Nat) (req : TutoringClass) :
    SysState × Except HErr Unit :=
  match aget s.classes_db cid with
  | none => (s, .error .notFound)
  | some _ =>
    let stored : TutoringClass := { req with id := some cid }
    let s1 : SysState :=
      { s with jobs := adel s.jobs cid, classes_db := aset s.classes_db cid stored }
    match schedule_reminder stored with
    | .installed spec => ({ s1 with jobs := aset s1.jobs cid spec }, .ok ())
    | .invalidDay => (s1, .ok ())
    | .invalidTime => (s1, .ok ())
    | .valueError => (s1, .error .internal)

/-- `delete_class` (lines 180-193): 404 if the id is unknown; otherwise
remove the job (ignoring absence) and delete the record. -/
def delete_class (s : SysState) (cid : Nat) : SysState × Except HErr Unit :=
  match aget s.classes_db cid with
  | none => (s, .error .notFound)
  | some _ =>
    ({ s with jobs := adel s.jobs cid, classes_db := adel s.classes_db cid }, .ok ())

/-- `send_manual_reminder` (lines 195-202): 404 if the id is unknown,
otherwise run `send_class_reminder` and report success. -/
def send_manual_reminder (s : SysState) (cid : Nat) : SysState × Except HErr Unit :=
  match aget s.classes_db cid with
  | none => (s, .error .notFound)
  | some _ => ((send_class_reminder s cid).1, .ok ())

/-- The class ids whose registry entry matches the current wall-clock
`(weekday, hour, minute)`: exactly the jobs the background timing mechanism
hands to the Dispatcher at that instant. -/
def dueFires (s : SysState) (d : Nat) (h m : Int) : List Nat :=
  (s.jobs.filter (fun p => p.2 = FireSpec.mk d h m)).map (fun p => p.1)

/-- One externally driven event: a CRUD call, a manual reminder, or a
background fire for one due class id. -/
inductive Op where
  | create (req : TutoringClass) (now : Nat)
  | update (cid : Nat) (req : TutoringClass)
  | delete (cid : Nat)
  | manual (cid : Nat)
  | fire (cid : Nat)
deriving Repr

/-- The state reached by one event (responses discarded). -/
def step (s : SysState) : Op → SysState
  | .create req now => (create_class s req now).1
  | .update cid req => (update_class s cid req).1
  | .delete cid => (delete_class s cid).1
  | .manual cid => (send_manual_reminder s cid).1
  | .fire cid => (send_class_reminder s cid).1

/-- The state reached from `init` by a sequence of events. -/
def run (ops : List Op) : SysState := ops.foldl step init

/-! ### Round-trip helper and concrete fixtures -/

/-- Absolute minute-of-week of a fire spec: day·1440 + hour·60 + minute. -/
def weeklyMinutes (fs : FireSpec) : Int :=
  (fs.day : Int) * 1440 + fs.hour * 60 + fs.minute

/-- Adding the lead minutes back to a fire spec in weekly-minute space,
modulo the week length 7 · 1440 = 10080, split back into
(weekday code, hour, minute). -/
def addLeadBack (fs : FireSpec) (lead : Int) : Nat × Int × Int :=
  let w := (weeklyMinutes fs + lead).emod 10080
  ((w / 1440).toNat, (w % 1440) / 60, (w % 1440) % 60)

/-- A well-formed create request: Friday 18:00, 15 minutes lead. -/
def fridayReq : TutoringClass :=
  ⟨none, "+15551234", "Ada", "Math", "Friday", "18:00", 15, true, none⟩

/-- The midnight/week-rollover request: Monday 00:10, 30 minutes lead. -/
def mondayNightReq : TutoringClass :=
  ⟨none, "+15551234", "Ada", "Math", "Monday", "00:10", 30, true, none⟩

/-- A request whose weekday is not one of the seven enumerated values. -/
def badDayReq : TutoringClass :=
  ⟨none, "+15551234", "Ada", "Math", "Someday", "18:00", 15, true, none⟩

/-- A request whose time parses but is out of range (minute 99). -/
def badTimeReq : TutoringClass :=
  ⟨none, "+15551234", "Ada", "Math", "Friday", "10:99", 15, true, none⟩

/-- A state holding one deactivated record and nothing else. -/
def inactiveState : SysState :=
  ⟨[(0, { fridayReq with id := some 0, is_active := false, created_at := some 1 })], [], [], 1⟩

/-- A state holding one active scheduled record together with its job. -/
def scheduledState : SysState :=
  ⟨[(0, { fridayReq with id := some 0, created_at := some 1 })],
    [(0, ⟨4, 17, 45⟩)], [], 1⟩

/-! ### Association-list lemmas -/

theorem find?_filter_of_imp {α : Type} (p q : α → Bool) (l : List α)
    (h : ∀ x, p x = true → q x = true) : (l.filter q).find? p = l.find? p := by
  induction l with
  | nil => rfl
  | cons a t ih =>
    by_cases hq : q a = true
    · by_cases hp : p a = true
      · simp [List.filter_cons, hq, List.find?_cons, hp]
      · simp [List.filter_cons, hq, List.find?_cons, hp, ih]
    · have hp : ¬ p a = true := fun hpa => hq (h a hpa)
      simp [List.filter_cons, hq, List.find?_cons, hp, ih]

theorem aget_aset_self {α : Type} (l : List (Nat × α)) (k : Nat) (v : α) :
    aget (aset l k v) k = some v := by
  simp [aget, aset, List.find?]

theorem aget_aset_ne {α : Type} (l : List (Nat × α)) (k k' : Nat) (v : α)
    (h : k' ≠ k) : aget (aset l k v) k' = aget l k' := by
  have hd : decide (k = k') = false := decide_eq_false fun hc => h hc.symm
  have hfilter := find?_filter_of_imp (fun p : Nat × α => decide (p.1 = k'))
    (fun p => decide (p.1 ≠ k)) l ?_
  · simp only [aget, aset, List.find?_cons, hd]
    rw [hfilter]
  · intro x hx
    simp only [decide_eq_true_eq] at hx ⊢
    omega

theorem aget_adel_self {α : Type} (l : List (Nat × α)) (k : Nat) :
    aget (adel l k) k = none := by
  have hf : (l.filter (fun p => p.1 ≠ k)).find? (fun p => p.1 = k) = none := by
    rw [List.find?_eq_none]
    intro x hx hc
    have hne := (List.mem_filter.mp hx).2
    simp only [decide_eq_true_eq] at hne hc
    exact hne hc
  simp [aget, adel, hf]

theorem aget_adel_ne {α : Type} (l : List (Nat × α)) (k k' : Nat)
    (h : k' ≠ k) : aget (adel l k) k' = aget l k' := by
  simp only [aget, adel]
  rw [find?_filter_of_imp]
  intro x hx
  simp only [decide_eq_true_eq] at hx ⊢
  omega

theorem mem_keys_of_aget_some {α : Type} (l : List (Nat × α)) (k : Nat) (v : α)
    (h : aget l k = some v) : k ∈ l.map (fun p => p.1) := by
  cases hf : l.find? (fun p => p.1 = k) with
  | none => simp [aget, hf] at h
  | some p =>
    have hkey := List.find?_some hf
    have hmem := List.mem_of_find?_eq_some hf
    simp only [decide_eq_true_eq] at hkey
    exact hkey ▸ List.mem_map_of_mem (fun p => p.1) hmem

theorem aget_eq_none_of_not_mem_keys {α : Type} (l : List (Nat × α)) (k : Nat)
    (h : k ∉ l.map (fun p => p.1)) : aget l k = none := by
  cases hf : l.find? (fun p => p.1 = k) with
  | none => simp [aget, hf]
  | some p =>
    have hkey := List.find?_some hf
    have hmem := List.mem_of_find?_eq_some hf
    simp only [decide_eq_true_eq] at hkey
    exact absurd (hkey ▸ List.mem_map_of_mem (fun p => p.1) hmem) h

theorem keys_aset_nodup {α : Type} (l : List (Nat × α)) (k : Nat) (v : α)
    (h : (l.map (fun p => p.1)).Nodup) : ((aset l k v).map (fun p => p.1)).Nodup := by
  simp only [aset, List.map_cons, List.nodup_cons]
  constructor
  · intro hmem
    obtain ⟨p, hp, hkey⟩ := List.mem_map.mp hmem
    have := (List.mem_filter.mp hp).2
    simp only [decide_eq_true_eq] at this
    exact this hkey
  · exact ((List.filter_sublist l).map (fun p => p.1)).nodup h

theorem keys_adel_nodup {α : Type} (l : List (Nat × α)) (k : Nat)
    (h : (l.map (fun p => p.1)).Nodup) : ((adel l k).map (fun p => p.1)).Nodup :=
  ((List.filter_sublist l).map (fun p => p.1)).nodup h

theorem keys_aset_bound {α : Type} (l : List (Nat × α)) (k : Nat) (v : α) (n : Nat)
    (hl : ∀ k' ∈ l.map (fun p => p.1), k' < n) (hk : k < n) :
    ∀ k' ∈ (aset l k v).map (fun p => p.1), k' < n := by
  intro k' hk'
  simp only [aset, List.map_cons, List.mem_cons] at hk'
  rcases hk' with h | h
  · exact h ▸ hk
  · obtain ⟨p, hp, hkey⟩ := List.mem_map.mp h
    exact hkey ▸ hl p.1 (List.mem_map_of_mem _ (List.mem_of_mem_filter hp))

theorem keys_adel_bound {α : Type} (l : List (Nat × α)) (k : Nat) (n : Nat)
    (hl : ∀ k' ∈ l.map (fun p => p.1), k' < n) :
    ∀ k' ∈ (adel l k).map (fun p => p.1), k' < n := by
  intro k' hk'
  obtain ⟨p, hp, hkey⟩ := List.mem_map.mp hk'
  exact hkey ▸ hl p.1 (List.mem_map_of_mem _ (List.mem_of_mem_filter hp))

theorem countP_key_aset_self {α : Type} (l : List (Nat × α)) (k : Nat) (v : α) :
    (aset l k v).countP (fun p => p.1 = k) = 1 := by
  simp only [aset, List.countP_cons, decide_eq_true_eq]
  have hz : (l.filter (fun p => p.1 ≠ k)).countP (fun p => (p.1 = k : Bool)) = 0 := by
    rw [List.countP_eq_zero]
    intro p hp
    have := (List.mem_filter.mp hp).2
    simp only [decide_eq_true_eq] at this ⊢
    exact this
  simp [hz]

theorem countP_key_adel_self {α : Type} (l : List (Nat × α)) (k : Nat) :
    (adel l k).countP (fun p => p.1 = k) = 0 := by
  rw [List.countP_eq_zero]
  intro p hp
  have := (List.mem_filter.mp hp).2
  simp only [decide_eq_true_eq] at this ⊢
  exact this

theorem countP_key_le_one_of_nodup {α : Type} (l : List (Nat × α)) (k : Nat)
    (h : (l.map (fun p => p.1)).Nodup) : l.countP (fun p => p.1 = k) ≤ 1 := by
  induction l with
  | nil => simp
  | cons a t ih =>
    simp only [List.map_cons, List.nodup_cons] at h
    by_cases hk : a.1 = k
    · have hz : t.countP (fun p => (p.1 = k : Bool)) = 0 := by
        rw [List.countP_eq_zero]
        intro p hp hc
        simp only [decide_eq_true_eq] at hc
        exact h.1 (hk ▸ hc ▸ List.mem_map_of_mem (fun p => p.1) hp)
      simp [List.countP_cons, hk, hz]
    · simpa [List.countP_cons, hk] using ih h.2

theorem countP_key_eq_one_of_aget_some {α : Type} (l : List (Nat × α)) (k : Nat) (v : α)
    (hnd : (l.map (fun p => p.1)).Nodup) (hg : aget l k = some v) :
    l.countP (fun p => p.1 = k) = 1 := by
  have hle := countP_key_le_one_of_nodup l k hnd
  have hpos : 0 < l.countP (fun p => p.1 = k) := by
    rw [List.countP_pos_iff]
    cases hf : l.find? (fun p => p.1 = k) with
    | none => simp [aget, hf] at hg
    | some q =>
      have hq := List.find?_some hf
      exact ⟨q, List.mem_of_find?_eq_some hf, hq⟩
  omega

theorem countP_key_eq_zero_of_aget_none {α : Type} (l : List (Nat × α)) (k : Nat)
    (hg : aget l k = none) : l.countP (fun p => p.1 = k) = 0 := by
  cases hf : l.find? (fun p => p.1 = k) with
  | some p => simp [aget, hf] at hg
  | none =>
    rw [List.countP_eq_zero]
    rw [List.find?_eq_none] at hf
    exact hf

/-! ### The reachable-state invariant -/

/-- The registry/record coupling maintained by the handlers: keys of both
maps are duplicate-free and below the fresh-id counter, and the job bound to
an id is exactly what `schedule_reminder` computed for the currently stored
record (`none` when there is no record or scheduling was skipped/failed). -/
def Inv (s : SysState) : Prop :=
  (s.classes_db.map (fun p => p.1)).Nodup ∧
  (s.jobs.map (fun p => p.1)).Nodup ∧
  (∀ k ∈ s.classes_db.map (fun p => p.1), k < s.next_id) ∧
  (∀ k ∈ s.jobs.map (fun p => p.1), k < s.next_id) ∧
  (∀ cid, aget s.jobs cid = (aget s.classes_db cid).bind schedSpec)

theorem Inv_init : Inv init := by
  refine ⟨List.nodup_nil, List.nodup_nil, ?_, ?_, ?_⟩
  · intro k hk
    simp [init] at hk
  · intro k hk
    simp [init] at hk
  · intro cid
    rfl

theorem Inv_fire (s : SysState) (cid : Nat) (h : Inv s) :
    Inv (send_class_reminder s cid).1 := by
  obtain ⟨hnc, hnj, hbc, hbj, hmain⟩ := h
  cases hrec : aget s.classes_db cid with
  | none =>
    simp only [send_class_reminder, hrec]
    exact ⟨hnc, hnj, hbc, hbj, hmain⟩
  | some c =>
    simp only [send_class_reminder, hrec]
    by_cases hact : c.is_active = false
    · rw [if_pos hact]
      exact ⟨hnc, hnj, hbc, hbj, hmain⟩
    · rw [if_neg hact]
      exact ⟨hnc, hnj, hbc, hbj, hmain⟩

theorem Inv_create (s : SysState) (req : TutoringClass) (now : Nat) (h : Inv s) :
    Inv (create_class s req now).1 := by
  obtain ⟨hnc, hnj, hbc, hbj, hmain⟩ := h
  have hfreshj : aget s.jobs s.next_id = none :=
    aget_eq_none_of_not_mem_keys _ _ (fun hm => absurd (hbj _ hm) (lt_irrefl _))
  have hnc1 : ((aset s.classes_db s.next_id
      { req with id := some s.next_id, created_at := some now }).map (fun p => p.1)).Nodup :=
    keys_aset_nodup _ _ _ hnc
  have hbc1 : ∀ k ∈ (aset s.classes_db s.next_id
      { req with id := some s.next_id, created_at := some now }).map (fun p => p.1),
      k < s.next_id + 1 :=
    keys_aset_bound _ _ _ _ (fun k hk => Nat.lt_succ_of_lt (hbc k hk)) (Nat.lt_succ_self _)
  simp only [create_class]
  cases hs : schedule_reminder { req with id := some s.next_id, created_at := some now } with
  | installed spec =>
    have hmain1 : ∀ k, aget (aset s.jobs s.next_id spec) k =
        (aget (aset s.classes_db s.next_id
          { req with id := some s.next_id, created_at := some now }) k).bind schedSpec := by
      intro k
      by_cases hk : k = s.next_id
      · subst hk
        rw [aget_aset_self, aget_aset_self]
        simp [schedSpec, hs]
      · rw [aget_aset_ne _ _ _ _ hk, aget_aset_ne _ _ _ _ hk]
        exact hmain k
    exact ⟨hnc1, keys_aset_nodup _ _ _ hnj, hbc1,
      keys_aset_bound _ _ _ _ (fun k hk => Nat.lt_succ_of_lt (hbj k hk)) (Nat.lt_succ_self _),
      hmain1⟩
  | invalidDay =>
    have hmain1 : ∀ k, aget s.jobs k =
        (aget (aset s.classes_db s.next_id
          { req with id := some s.next_id, created_at := some now }) k).bind schedSpec := by
      intro k
      by_cases hk : k = s.next_id
      · subst hk
        rw [aget_aset_self, hfreshj]
        simp [schedSpec, hs]
      · rw [aget_aset_ne _ _ _ _ hk]
        exact hmain k
    exact ⟨hnc1, hnj, hbc1, fun k hk => Nat.lt_succ_of_lt (hbj k hk), hmain1⟩
  | invalidTime =>
    have hmain1 : ∀ k, aget s.jobs k =
        (aget (aset s.classes_db s.next_id
          { req with id := some s.next_id, created_at := some now }) k).bind schedSpec := by
      intro k
      by_cases hk : k = s.next_id
      · subst hk
        rw [aget_aset_self, hfreshj]
        simp [schedSpec, hs]
      · rw [aget_aset_ne _ _ _ _ hk]
        exact hmain k
    exact ⟨hnc1, hnj, hbc1, fun k hk => Nat.lt_succ_of_lt (hbj k hk), hmain1⟩
  | valueError =>
    have hmain1 : ∀ k, aget s.jobs k =
        (aget (aset s.classes_db s.next_id
          { req with id := some s.next_id, created_at := some now }) k).bind schedSpec := by
      intro k
      by_cases hk : k = s.next_id
      · subst hk
        rw [aget_aset_self, hfreshj]
        simp [schedSpec, hs]
      · rw [aget_aset_ne _ _ _ _ hk]
        exact hmain k
    exact ⟨hnc1, hnj, hbc1, fun k hk => Nat.lt_succ_of_lt (hbj k hk), hmain1⟩

theorem Inv_update (s : SysState) (cid : Nat) (req : TutoringClass) (h : Inv s) :
    Inv (update_class s cid req).1 := by
  obtain ⟨hnc, hnj, hbc, hbj, hmain⟩ := h
  cases hrec : aget s.classes_db cid with
  | none =>
    simp only [update_class, hrec]
    exact ⟨hnc, hnj, hbc, hbj, hmain⟩
  | some c =>
    have hcidlt : cid < s.next_id := hbc cid (mem_keys_of_aget_some _ _ _ hrec)
    simp only [update_class, hrec]
    cases hs : schedule_reminder { req with id := some cid } with
    | installed spec =>
      have hmain1 : ∀ k, aget (aset (adel s.jobs cid) cid spec) k =
          (aget (aset s.classes_db cid { req with id := some cid }) k).bind schedSpec := by
        intro k
        by_cases hk : k = cid
        · subst hk
          rw [aget_aset_self, aget_aset_self]
          simp [schedSpec, hs]
        · rw [aget_aset_ne _ _ _ _ hk, aget_aset_ne _ _ _ _ hk, aget_adel_ne _ _ _ hk]
          exact hmain k
      exact ⟨keys_aset_nodup _ _ _ hnc, keys_aset_nodup _ _ _ (keys_adel_nodup _ _ hnj),
        keys_aset_bound _ _ _ _ hbc hcidlt,
        keys_aset_bound _ _ _ _ (keys_adel_bound _ _ _ hbj) hcidlt, hmain1⟩
    | invalidDay =>
      have hmain1 : ∀ k, aget (adel s.jobs cid) k =
          (aget (aset s.classes_db cid { req with id := some cid }) k).bind schedSpec := by
        intro k
        by_cases hk : k = cid
        · subst hk
          rw [aget_adel_self, aget_aset_self]
          simp [schedSpec, hs]
        · rw [aget_adel_ne _ _ _ hk, aget_aset_ne _ _ _ _ hk]
          exact hmain k
      exact ⟨keys_aset_nodup _ _ _ hnc, keys_adel_nodup _ _ hnj,
        keys_aset_bound _ _ _ _ hbc hcidlt, keys_adel_bound _ _ _ hbj, hmain1⟩
    | invalidTime =>
      have hmain1 : ∀ k, aget (adel s.jobs cid) k =
          (aget (aset s.classes_db cid { req with id := some cid }) k).bind schedSpec := by
        intro k
        by_cases hk : k = cid
        · subst hk
          rw [aget_adel_self, aget_aset_self]
          simp [schedSpec, hs]
        · rw [aget_adel_ne _ _ _ hk, aget_aset_ne _ _ _ _ hk]
          exact hmain k
      exact ⟨keys_aset_nodup _ _ _ hnc, keys_adel_nodup _ _ hnj,
        keys_aset_bound _ _ _ _ hbc hcidlt, keys_adel_bound _ _ _ hbj, hmain1⟩
    | valueError =>
      have hmain1 : ∀ k, aget (adel s.jobs cid) k =
          (aget (aset s.classes_db cid { req with id := some cid }) k).bind schedSpec := by
        intro k
        by_cases hk : k = cid
        · subst hk
          rw [aget_adel_self, aget_aset_self]
          simp [schedSpec, hs]
        · rw [aget_adel_ne _ _ _ hk, aget_aset_ne _ _ _ _ hk]
          exact hmain k
      exact ⟨keys_aset_nodup _ _ _ hnc, keys_adel_nodup _ _ hnj,
        keys_aset_bound _ _ _ _ hbc hcidlt, keys_adel_bound _ _ _ hbj, hmain1⟩

theorem Inv_delete (s : SysState) (cid : Nat) (h : Inv s) :
    Inv (delete_class s cid).1 := by
  obtain ⟨hnc, hnj, hbc, hbj, hmain⟩ := h
  cases hrec : aget s.classes_db cid with
  | none =>
    simp only [delete_class, hrec]
    exact ⟨hnc, hnj, hbc, hbj, hmain⟩
  | some c =>
    simp only [delete_class, hrec]
    refine ⟨keys_adel_nodup _ _ hnc, keys_adel_nodup _ _ hnj,
      keys_adel_bound _ _ _ hbc, keys_adel_bound _ _ _ hbj, ?_⟩
    intro k
    by_cases hk : k = cid
    · subst hk
      rw [aget_adel_self, aget_adel_self]
      rfl
    · rw [aget_adel_ne _ _ _ hk, aget_adel_ne _ _ _ hk]
      exact hmain k

theorem Inv_manual (s : SysState) (cid : Nat) (h : Inv s) :
    Inv (send_manual_reminder s cid).1 := by
  cases hrec : aget s.classes_db cid with
  | none =>
    simp only [send_manual_reminder, hrec]
    exact h
  | some c =>
    simp only [send_manual_reminder, hrec]
    exact Inv_fire s cid h

theorem Inv_step (s : SysState) (op : Op) (h : Inv s) : Inv (step s op) := by
  cases op with
  | create req now => exact Inv_create s req now h
  | update cid req => exact Inv_update s cid req h
  | delete cid => exact Inv_delete s cid h
  | manual cid => exact Inv_manual s cid h
  | fire cid => exact Inv_fire s cid h

theorem Inv_run (ops : List Op) : Inv (run ops) := by
  suffices hgen : ∀ (l : List Op) (s : SysState), Inv s → Inv (l.foldl step s) from
    hgen ops init Inv_init
  intro l
  induction l with
  | nil => intro s hs; exact hs
  | cons a t ih => intro s hs; exact ih (step s a) (Inv_step s a hs)

/-! ### Claim theorems -/

/-- Claim C1 (refuted at a concrete input): for the fire spec the code
computes for Monday 00:10 with 30 lead minutes, adding the 30 minutes back
in weekly-minute space modulo the week length does not return Monday 00:10;
it lands on Tuesday 00:10, because `schedule_reminder` keeps the original
weekday while wrapping only the time of day. -/
theorem roundtrip_fails_at_week_boundary :
    schedule_reminder mondayNightReq = SchedOutcome.installed ⟨0, 23, 40⟩ ∧
    day_mapping mondayNightReq.day_of_week = some 0 ∧
    addLeadBack ⟨0, 23, 40⟩ 30 = (1, 0, 10) ∧
    addLeadBack ⟨0, 23, 40⟩ 30 ≠ (0, 0, 10) := by decide

/-- Claim C2 (refuted at the given input): for Monday 00:10 with 30 lead
minutes the code installs the trigger on weekday code 0 (Monday) at 23:40,
not on Sunday (code 6) at 23:40 as the claim requires. -/
theorem fire_spec_keeps_monday_at_midnight :
    schedule_reminder mondayNightReq = SchedOutcome.installed ⟨0, 23, 40⟩ ∧
    day_mapping "Sunday" = some 6 ∧
    schedule_reminder mondayNightReq ≠ SchedOutcome.installed ⟨6, 23, 40⟩ := by decide

/-- Claim C3 (refuted at a concrete input): creating a class with an invalid
weekday is not rejected — the caller receives the success payload with the
new id, the record is stored, and no job is installed. -/
theorem invalid_day_create_succeeds :
    (create_class init badDayReq 0).2 = Except.ok 0 ∧
    aget (create_class init badDayReq 0).1.classes_db 0 =
      some { badDayReq with id := some 0, created_at := some 0 } ∧
    (create_class init badDayReq 0).1.jobs = [] := by decide

/-- Claim C4 (counterexample): the state reached by a single `onCreate` with
an invalid weekday holds an active record with no registry entry. -/
theorem active_record_without_registry_entry :
    aget (run [Op.create badDayReq 0]).classes_db 0 =
      some { badDayReq with id := some 0, created_at := some 0 } ∧
    ({ badDayReq with id := some 0, created_at := some 0 } : TutoringClass).is_active = true ∧
    (run [Op.create badDayReq 0]).jobs.countP (fun p => p.1 = 0) = 0 := by decide

/-- Claim C4 (amended): in every reachable state, every stored active record
whose schedule fields are valid — that is, `schedule_reminder` computes a
fire spec for it — has exactly one registry entry, holding exactly that
computed spec; and an id with no stored record (never created, or deleted)
has no registry entry. -/
theorem registry_matches_stored_records : ∀ (ops : List Op) (cid : Nat),
    (∀ (c : TutoringClass) (spec : FireSpec),
      aget (run ops).classes_db cid = some c → c.is_active = true →
      schedSpec c = some spec →
      (run ops).jobs.countP (fun p => p.1 = cid) = 1 ∧
      aget (run ops).jobs cid = some spec) ∧
    (aget (run ops).classes_db cid = none →
      (run ops).jobs.countP (fun p => p.1 = cid) = 0) := by
  intro ops cid
  obtain ⟨hnc, hnj, hbc, hbj, hmain⟩ := Inv_run ops
  constructor
  · intro c spec hc hact hs
    have hj : aget (run ops).jobs cid = some spec := by
      rw [hmain cid, hc]
      simp [hs]
    exact ⟨countP_key_eq_one_of_aget_some _ _ _ hnj hj, hj⟩
  · intro hc
    have hj : aget (run ops).jobs cid = none := by
      rw [hmain cid, hc]
      rfl
    exact countP_key_eq_zero_of_aget_none _ _ hj

/-- Witness for the amended C4 invariant: after creating the Friday 18:00
class with 15 lead minutes, id 0 has exactly one registry entry, holding
Friday (code 4) 17:45. -/
theorem registry_matches_stored_records_witness :
    (run [Op.create fridayReq 7]).jobs.countP (fun p => p.1 = 0) = 1 ∧
    aget (run [Op.create fridayReq 7]).jobs 0 = some ⟨4, 17, 45⟩ :=
  (registry_matches_stored_records [Op.create fridayReq 7] 0).1
    { fridayReq with id := some 0, created_at := some 7 } ⟨4, 17, 45⟩
    (by decide) (by decide) (by decide)

/-- Claim C5: installing twice under the same id leaves exactly one entry
for that id, holding the fire spec of the second call; and in every
reachable state every id has at most one registry entry. -/
theorem install_replace_semantics :
    (∀ (jobs : List (Nat × FireSpec)) (cid : Nat) (sp1 sp2 : FireSpec),
      (aset (aset jobs cid sp1) cid sp2).countP (fun p => p.1 = cid) = 1 ∧
      aget (aset (aset jobs cid sp1) cid sp2) cid = some sp2) ∧
    (∀ (ops : List Op) (cid : Nat),
      (run ops).jobs.countP (fun p => p.1 = cid) ≤ 1) := by
  constructor
  · intro jobs cid sp1 sp2
    exact ⟨countP_key_aset_self _ _ _, aget_aset_self _ _ _⟩
  · intro ops cid
    obtain ⟨-, hnj, -, -, -⟩ := Inv_run ops
    exact countP_key_le_one_of_nodup _ _ hnj

/-- Claim C6: firing the Dispatcher on an existing but deactivated record
leaves the state unchanged — in particular nothing is appended to the
message log — and yields the non-error no-op result. -/
theorem fire_inactive_is_noop (s : SysState) (cid : Nat) (c : TutoringClass)
    (hrec : aget s.classes_db cid = some c) (hact : c.is_active = false) :
    send_class_reminder s cid = (s, FireResult.inactiveNoop) := by
  simp only [send_class_reminder, hrec]
  rw [if_pos hact]

/-- Witness for C6 at a concrete state with one deactivated record. -/
theorem fire_inactive_is_noop_witness :
    send_class_reminder inactiveState 0 = (inactiveState, FireResult.inactiveNoop) :=
  fire_inactive_is_noop inactiveState 0
    { fridayReq with id := some 0, is_active := false, created_at := some 1 }
    (by decide) (by decide)

/-- Claim C7: firing on an id with no stored record reports the
unknown-session outcome with the state unchanged (zero transport calls) and
returns normally — the background path swallows the condition — while the
manual path rejects the same id with a 404 error. -/
theorem fire_unknown_session (s : SysState) (cid : Nat)
    (hrec : aget s.classes_db cid = none) :
    send_class_reminder s cid = (s, FireResult.unknownSession) ∧
    send_manual_reminder s cid = (s, Except.error HErr.notFound) := by
  constructor
  · simp only [send_class_reminder, hrec]
  · simp only [send_manual_reminder, hrec]

/-- Witness for C7 at the empty startup state. -/
theorem fire_unknown_session_witness :
    send_class_reminder init 0 = (init, FireResult.unknownSession) ∧
    send_manual_reminder init 0 = (init, Except.error HErr.notFound) :=
  fire_unknown_session init 0 (by decide)

/-- Claim C8 (refuted at a concrete input): after creating a class at time 5
and then updating it with a request body carrying `created_at = none` (the
pydantic default), the stored record keeps id 0 but its `created_at` is
overwritten to `none`: `update_class` stores the `created_at` of the request
body instead of preserving the creation timestamp. -/
theorem update_resets_created_at :
    aget (run [Op.create fridayReq 5]).classes_db 0 =
      some { fridayReq with id := some 0, created_at := some 5 } ∧
    aget (run [Op.create fridayReq 5, Op.update 0 fridayReq]).classes_db 0 =
      some { fridayReq with id := some 0, created_at := none } ∧
    (some 5 : Option Nat) ≠ (none : Option Nat) := by decide

/-- Claim C9: once `delete_class` succeeds for an id, that id is due at no
wall-clock instant of any week — the background timing mechanism never hands
it to the Dispatcher again, since its job was removed with the record. -/
theorem delete_cancels_scheduled_fire (s s2 : SysState) (cid : Nat)
    (hdel : delete_class s cid = (s2, Except.ok ())) :
    ∀ (d : Nat) (hr mi : Int), cid ∉ dueFires s2 d hr mi := by
  intro d hr mi hmem
  cases hrec : aget s.classes_db cid with
  | none => simp [delete_class, hrec] at hdel
  | some c =>
    simp only [delete_class, hrec] at hdel
    injection hdel with hs2 hres
    rw [← hs2] at hmem
    simp only [dueFires, adel, List.mem_map, List.mem_filter,
      decide_eq_true_eq] at hmem
    obtain ⟨p, ⟨⟨-, hpne⟩, -⟩, hpkey⟩ := hmem
    exact hpne hpkey

/-- Witness for C9: deleting the scheduled Friday class removes id 0 from
the due set at its former fire instant, Friday (code 4) 17:45. -/
theorem delete_cancels_scheduled_fire_witness :
    0 ∉ dueFires (delete_class scheduledState 0).1 4 17 45 :=
  delete_cancels_scheduled_fire scheduledState (delete_class scheduledState 0).1 0
    rfl 4 17 45

/-- Claim C10 (counterexample): a create whose time parses but is out of
range is stored under the fresh key, yet the caller receives an internal
error instead of a response carrying the new id. -/
theorem create_value_error_hides_id :
    (create_class init badTimeReq 0).2 = Except.error HErr.internal ∧
    aget (create_class init badTimeReq 0).1.classes_db 0 =
      some { badTimeReq with id := some 0, created_at := some 0 } := by decide

/-- Claim C10 (amended): every create stores the record under the fresh
server-generated id — any caller-supplied id is overwritten — bumps the id
counter, and answers with exactly that id, except that when the scheduling
step raises on an out-of-range time the caller gets an internal error while
the record is still stored under the fresh key; and reachable states never
hold two records under one key, so two creates never collide. -/
theorem create_uses_fresh_server_id :
    (∀ (s : SysState) (req : TutoringClass) (now : Nat),
      aget (create_class s req now).1.classes_db s.next_id =
        some { req with id := some s.next_id, created_at := some now } ∧
      (create_class s req now).1.next_id = s.next_id + 1 ∧
      (create_class s req now).2 =
        (match schedule_reminder { req with id := some s.next_id, created_at := some now } with
         | SchedOutcome.valueError => Except.error HErr.internal
         | _ => Except.ok s.next_id)) ∧
    (∀ ops : List Op, ((run ops).classes_db.map (fun p => p.1)).Nodup) := by
  constructor
  · intro s req now
    simp only [create_class]
    cases hs : schedule_reminder { req with id := some s.next_id, created_at := some now } with
    | installed spec => exact ⟨aget_aset_self _ _ _, rfl, rfl⟩
    | invalidDay => exact ⟨aget_aset_self _ _ _, rfl, rfl⟩
    | invalidTime => exact ⟨aget_aset_self _ _ _, rfl, rfl⟩
    | valueError => exact ⟨aget_aset_self _ _ _, rfl, rfl⟩
  · intro ops
    obtain ⟨hnc, -, -, -, -⟩ := Inv_run ops
    exact hnc

end StudySync
